import Mathlib

/-!
Shallow embedding of `src/enricher.py` (coordinate-enrichment cascade for
establishment records) and verification of its specified properties.

Modelling conventions:
* A polars `DataFrame` is a `List` of record structures; a nullable column
  is an `Option` field.
* `Float64` cell values are modelled by `FVal`: a finite rational, `nan`,
  `inf` or `ninf`.  The pipeline never does arithmetic on coordinate
  values, only copies and sign comparisons, so this is faithful.
* Street-number strings are digit strings; `cast(pl.Float64, strict=False)`
  applied to a digit-stripped string is modelled by `parseNum`, which
  succeeds exactly on non-empty all-digit strings (the values stay within
  the range where `Float64` is exact for the inputs of interest).
* `requests.get` against the Nominatim service is modelled by an oracle
  `String → GeoResp`; network errors, `raise_for_status` failures and
  response-parsing exceptions are all the `GeoResp.fail` outcome, an empty
  result array is `GeoResp.empty`.
* `time.sleep` and the issued HTTP requests are recorded in an event trace
  (`NomEvent`) so that the politeness-delay property can be stated.
-/

namespace Enricher

/-- Model of a polars `Float64` cell value: a finite rational or one of the
non-finite IEEE values. -/
inductive FVal where
  | fin (q : ℚ)
  | nan
  | inf
  | ninf
deriving DecidableEq, Repr

/-- Model of the Python comparison `v < 0` on a `Float64` value
(`nan < 0` is `False`). -/
def FVal.isLtZero : FVal → Bool
  | .fin q => decide (q < 0)
  | .nan => false
  | .inf => false
  | .ninf => true

/-- Model of polars `str.replace_all(r"\D", "")`: drop every non-digit
character. -/
def digitStrip (s : String) : String :=
  ⟨s.data.filter Char.isDigit⟩

/-- Model of polars / Python `str.zfill(w)`: left-pad with `'0'` to width
`w`; a leading sign stays in front of the padding; strings of length `≥ w`
are unchanged. -/
def zfill (w : Nat) (s : String) : String :=
  if w ≤ s.length then s
  else
    match s.data with
    | c :: rest =>
      if c = '+' ∨ c = '-' then ⟨c :: (List.replicate (w - s.length) '0' ++ rest)⟩
      else ⟨List.replicate (w - s.length) '0' ++ s.data⟩
    | [] => ⟨List.replicate w '0'⟩

/-- Model of Python `str.strip()`: remove leading and trailing whitespace.
(Defined structurally over the character list so that it evaluates inside
the kernel, unlike `String.trim`.) -/
def pyStrip (s : String) : String :=
  ⟨((s.data.dropWhile Char.isWhitespace).reverse.dropWhile
      Char.isWhitespace).reverse⟩

/-- Model of `cast(pl.Float64, strict=False)` applied to a digit-stripped
string and read back as an integer street number: a non-empty all-digit
string parses to its value, anything else becomes null. -/
def parseNum (s : String) : Option Nat :=
  if s.length ≠ 0 ∧ s.data.all Char.isDigit then
    some (s.data.foldl (fun n c => n * 10 + (c.toNat - 48)) 0)
  else none

/-- One row of the coordinate catalog (`coord_{UF}.parquet`).  `NUM_IBGE`
models the derived `_NUM_IBGE` column (null on raw rows). -/
structure CoordRow where
  COD_MUNICIPIO : Int
  CEP : String
  NUM_ENDERECO : String
  LATITUDE : Option FVal
  LONGITUDE : Option FVal
  NUM_IBGE : Option Nat := none
deriving DecidableEq, Repr

/-- The catalog file for one region: its column names and its rows.
The path lookup of `load_coords` is modelled by passing `Option CoordFile`
(`none` = no file on disk for the region). -/
structure CoordFile where
  columns : List String
  rows : List CoordRow
deriving Repr

/-- The two fatal load-time errors of `load_coords`
(`FileNotFoundError` and the missing-columns `ValueError`). -/
inductive LoadError where
  | fileNotFound
  | missingColumns (missing : List String)
deriving DecidableEq, Repr

def requiredCols : List String :=
  ["COD_MUNICIPIO", "CEP", "NUM_ENDERECO", "LATITUDE", "LONGITUDE"]

/-- Keep the first row for each key, drop later duplicates; models
`.unique(subset=["CEP", "NUM_ENDERECO"])` (polars keeps an arbitrary
representative; the model fixes the first). -/
def uniqueBy {α κ : Type} [DecidableEq κ] (key : α → κ) :
    List α → List κ → List α
  | [], _ => []
  | x :: xs, seen =>
    if key x ∈ seen then uniqueBy key xs seen
    else x :: uniqueBy key xs (key x :: seen)

/-- Model of `load_coords` from `src/enricher.py`: schema validation, optional
municipality filter, CEP / street-number normalization, removal of rows
with empty street number or null coordinates, dedup by
`(CEP, NUM_ENDERECO)`, and derivation of the numeric `_NUM_IBGE` column.
The `Option (List Int)` argument models `ibge_codes: list[int] | None`;
Python's `if ibge_codes:` is falsy for both `None` and `[]`. -/
def load_coords :
    Option CoordFile → Option (List Int) → Except LoadError (List CoordRow)
  | none, _ => .error .fileNotFound
  | some f, ibge_codes =>
    let missing := requiredCols.filter (fun c => !(f.columns.contains c))
    if missing.isEmpty then
      let rows :=
        match ibge_codes with
        | some codes =>
          if codes.isEmpty then f.rows
          else f.rows.filter (fun r => codes.contains r.COD_MUNICIPIO)
        | none => f.rows
      let std := rows.map (fun r =>
        { r with CEP := zfill 8 (digitStrip r.CEP)
                 NUM_ENDERECO := digitStrip r.NUM_ENDERECO })
      let kept := std.filter (fun r =>
        r.NUM_ENDERECO.length > 0 && r.LATITUDE.isSome && r.LONGITUDE.isSome)
      let deduped := uniqueBy (fun r => (r.CEP, r.NUM_ENDERECO)) kept []
      .ok (deduped.map (fun r => { r with NUM_IBGE := parseNum r.NUM_ENDERECO }))
    else .error (.missingColumns missing)

/-- One establishment record.  The text columns consumed by the cascade are
modelled as (non-null) strings; `CNPJ` is the derived composite identifier,
null before `_prepare_estab` runs. -/
structure EstabRow where
  CNPJ_BASICO : String
  CNPJ_ORDEM : String
  CNPJ_DV : String
  CNPJ : String := ""
  NOME_FANTASIA : String
  TIPO_LOGRADOURO : String
  LOGRADOURO : String
  NUMERO : String
  BAIRRO : String
  CEP : String
  UF : String
  LATITUDE : Option FVal := none
  LONGITUDE : Option FVal := none
deriving DecidableEq, Repr

/-- The per-row content of `_prepare_estab`'s `with_columns`. -/
def prepRow (r : EstabRow) : EstabRow :=
  { r with
    CEP := zfill 8 (digitStrip r.CEP)
    NUMERO := digitStrip r.NUMERO
    CNPJ := zfill 8 r.CNPJ_BASICO ++ zfill 4 r.CNPJ_ORDEM ++ zfill 2 r.CNPJ_DV
    LATITUDE := none
    LONGITUDE := none }

/-- Model of `_prepare_estab` from `src/enricher.py`: normalize CEP and NUMERO,
assemble the composite CNPJ, initialize LATITUDE / LONGITUDE to null. -/
def prepare_estab (df : List EstabRow) : List EstabRow :=
  df.map prepRow

/-- The `when(col.is_null()).then(candidate).otherwise(col)` pattern used at
every stage boundary: fill a coordinate only when it is currently null. -/
def fillCoords (r : EstabRow) (la lo : Option FVal) : EstabRow :=
  { r with
    LATITUDE := if r.LATITUDE = none then la else r.LATITUDE
    LONGITUDE := if r.LONGITUDE = none then lo else r.LONGITUDE }

/-- Model of `_enrich_exact` from `src/enricher.py`: left join on
`(CEP, NUMERO) = (CEP, NUM_ENDERECO)` followed by fill-if-null.  A left
row with no catalog match joins against nulls; a left row with several
matches is emitted once per match (polars left-join semantics) — the
dedup in the loader guarantees at most one. -/
def enrich_exact (df : List EstabRow) (df_coords : List CoordRow) :
    List EstabRow :=
  df.flatMap (fun r =>
    if (df_coords.filter
        (fun c => c.CEP == r.CEP && c.NUM_ENDERECO == r.NUMERO)).isEmpty then
      [fillCoords r none none]
    else
      (df_coords.filter
        (fun c => c.CEP == r.CEP && c.NUM_ENDERECO == r.NUMERO)).map
        (fun c => fillCoords r c.LATITUDE c.LONGITUDE))

/-- The per-row result of `enrich_exact` when the catalog has at most one
row per `(CEP, NUM_ENDERECO)` key. -/
def exactRow (df_coords : List CoordRow) (r : EstabRow) : EstabRow :=
  match (df_coords.filter
      (fun c => c.CEP == r.CEP && c.NUM_ENDERECO == r.NUMERO)).head? with
  | some c => fillCoords r c.LATITUDE c.LONGITUDE
  | none => fillCoords r none none

/-- Numeric street number of a catalog row (the rows fed to the asof join
are pre-filtered to non-null `NUM_IBGE`). -/
def numOf (c : CoordRow) : Nat := c.NUM_IBGE.getD 0

/-- Kernel-computable lexicographic strict order on character lists (the
order polars uses to sort string key columns). -/
def lexLtCh : List Char → List Char → Bool
  | [], [] => false
  | [], _ :: _ => true
  | _ :: _, [] => false
  | a :: as, b :: bs =>
    if a < b then true else if b < a then false else lexLtCh as bs

/-- Sort key order for the catalog side of the asof join:
`sort(["_RCEP", "_NUM_IBGE"])`. -/
def asofLe (a b : CoordRow) : Prop :=
  lexLtCh a.CEP.data b.CEP.data = true ∨ (a.CEP = b.CEP ∧ numOf a ≤ numOf b)

instance : DecidableRel asofLe := fun a b =>
  inferInstanceAs (Decidable (lexLtCh a.CEP.data b.CEP.data = true ∨
    (a.CEP = b.CEP ∧ numOf a ≤ numOf b)))

/-- Sort key order for the establishment side: `sort(["CEP", "_NUM_EST"])`. -/
def estLe (a b : EstabRow) : Prop :=
  lexLtCh a.CEP.data b.CEP.data = true ∨
    (a.CEP = b.CEP ∧ (parseNum a.NUMERO).getD 0 ≤ (parseNum b.NUMERO).getD 0)

instance : DecidableRel estLe := fun a b =>
  inferInstanceAs (Decidable (lexLtCh a.CEP.data b.CEP.data = true ∨
    (a.CEP = b.CEP ∧ (parseNum a.NUMERO).getD 0 ≤ (parseNum b.NUMERO).getD 0)))

/-- The catalog side of the asof join (`coords_asof` in the source): rows
with a numeric street number, sorted by `(CEP, number)`. -/
def coordsAsof (df_coords : List CoordRow) : List CoordRow :=
  List.insertionSort asofLe (df_coords.filter (fun c => c.NUM_IBGE.isSome))

/-- Model of polars `join_asof(…, strategy="nearest")` on one sorted
candidate group: scan the group keeping a candidate only when it is
strictly closer than the current best, so on an exact distance tie the
earlier (smaller-numbered) sorted row wins. -/
def nearestAsof (x : Nat) : List CoordRow → Option CoordRow
  | [] => none
  | c :: rest =>
    match nearestAsof x rest with
    | none => some c
    | some b => if Nat.dist (numOf b) x < Nat.dist (numOf c) x then some b else some c

/-- One left row of the asof join plus the fill-if-null stage boundary:
match against the same-CEP group of the sorted catalog. -/
def asofFill (casof : List CoordRow) (x : Nat) (r : EstabRow) : EstabRow :=
  match nearestAsof x (casof.filter (fun c => c.CEP == r.CEP)) with
  | some c => fillCoords r c.LATITUDE c.LONGITUDE
  | none => fillCoords r none none

/-- The per-row result of the approximate stage. -/
def approxRow (df_coords : List CoordRow) (r : EstabRow) : EstabRow :=
  match parseNum r.NUMERO with
  | some x => asofFill (coordsAsof df_coords) x r
  | none => r

/-- Model of `_enrich_approximate` from `src/enricher.py`: split rows by whether the
digit-stripped `NUMERO` casts to a number, asof-join the numeric part
(sorted, nearest within the same CEP) against the sorted numeric catalog,
fill null coordinates, and re-append the rows without a number.  On the
numeric rows the `none` branch of `approxRow` is unreachable, so mapping
`approxRow` is the join itself. -/
def enrich_approximate (df : List EstabRow) (df_coords : List CoordRow) :
    List EstabRow :=
  if (List.insertionSort estLe
      (df.filter (fun r => (parseNum r.NUMERO).isSome))).isEmpty then df
  else
    (List.insertionSort estLe
        (df.filter (fun r => (parseNum r.NUMERO).isSome))).map
      (approxRow df_coords) ++
    df.filter (fun r => !(parseNum r.NUMERO).isSome)

/-- Outcome of one Nominatim HTTP attempt for a given query string:
`fail` covers network errors, non-2xx statuses and response-parsing
exceptions (all caught by the `except` block); `empty` is an empty result
array; `found` carries the parsed `lat` / `lon` of the first result. -/
inductive GeoResp where
  | fail
  | empty
  | found (lat lon : FVal)
deriving DecidableEq, Repr

/-- Observable events of the Nominatim stage, in program order: an HTTP
request for a query string, or a `time.sleep(rate_limit)`. -/
inductive NomEvent where
  | req (q : String)
  | sleep (t : ℚ)
deriving DecidableEq, Repr

/-- Model of `_build_address` from `src/enricher.py`: join the stripped non-empty
address components with single spaces. -/
def build_address (r : EstabRow) : String :=
  String.intercalate " "
    (([r.TIPO_LOGRADOURO, r.LOGRADOURO, r.NUMERO, r.BAIRRO, r.UF,
       "Brasil"].map pyStrip).filter (fun p => p ≠ ""))

/-- The query-variant loop body of `_enrich_nominatim` for one row: try
each query in order; skip blank queries; accept a `found` result only when
both coordinates are `< 0` and then `break` (returning without the
trailing sleep); any other outcome sleeps `rate` and falls through to the
next variant.  Returns the `(lat, lon)` pair for the row and the event
trace. -/
def tryQueries (oracle : String → GeoResp) (rate : ℚ) :
    List String → (Option FVal × Option FVal) × List NomEvent
  | [] => ((none, none), [])
  | q0 :: rest =>
    if pyStrip q0 = "" then tryQueries oracle rate rest
    else
      match oracle (pyStrip q0) with
      | .found la lo =>
        if la.isLtZero && lo.isLtZero then ((some la, some lo), [.req (pyStrip q0)])
        else
          ((tryQueries oracle rate rest).1,
           .req (pyStrip q0) :: .sleep rate :: (tryQueries oracle rate rest).2)
      | _ =>
        ((tryQueries oracle rate rest).1,
         .req (pyStrip q0) :: .sleep rate :: (tryQueries oracle rate rest).2)

/-- The two query variants of `_enrich_nominatim` for one row: the full
composite address, then the display name (`NOME_FANTASIA`) alone. -/
def nomQueries (r : EstabRow) : List String :=
  [build_address r, r.NOME_FANTASIA]

/-- Process one unresolved row in the Nominatim stage: run the variant
loop and overwrite the `LATITUDE` / `LONGITUDE` of the row with its result
(both coordinates of `df_without` are rebuilt from the `lats` / `lons`
lists). -/
def nomiRow (oracle : String → GeoResp) (rate : ℚ) (r : EstabRow) :
    EstabRow × List NomEvent :=
  let out := tryQueries oracle rate (nomQueries r)
  ({ r with LATITUDE := out.1.1, LONGITUDE := out.1.2 }, out.2)

/-- The per-row result of the Nominatim stage over the whole batch: rows
with a non-null `LATITUDE` pass through `df_with` untouched. -/
def nomRow (oracle : String → GeoResp) (rate : ℚ) (r : EstabRow) : EstabRow :=
  if r.LATITUDE.isSome then r else (nomiRow oracle rate r).1

/-- Model of `_enrich_nominatim` from `src/enricher.py`: split the batch on
`LATITUDE.is_null()`, return early when nothing is unresolved, otherwise
geocode each unresolved row in order and concatenate
`df_with ++ df_without`.  Also returns the request / sleep event trace. -/
def enrich_nominatim (oracle : String → GeoResp) (df : List EstabRow)
    (rate : ℚ) : List EstabRow × List NomEvent :=
  if (df.filter (fun r => !r.LATITUDE.isSome)).isEmpty then (df, [])
  else
    (df.filter (fun r => r.LATITUDE.isSome) ++
       ((df.filter (fun r => !r.LATITUDE.isSome)).map
         (nomiRow oracle rate)).map Prod.fst,
     ((df.filter (fun r => !r.LATITUDE.isSome)).map
       (nomiRow oracle rate)).flatMap Prod.snd)

/-- Model of `enrich` from `src/enricher.py`: load the catalog (propagating its
errors), prepare the batch, run the exact and approximate merges and the
optional Nominatim fallback (with the default `rate_limit = 1.1`), and
return the batch.  The function computes and prints coverage statistics
but performs no row-count verification. -/
def enrich (file : Option CoordFile) (ibge_codes : Option (List Int))
    (use_nominatim : Bool) (oracle : String → GeoResp)
    (df : List EstabRow) : Except LoadError (List EstabRow) :=
  match load_coords file ibge_codes with
  | .error e => .error e
  | .ok df_coords =>
    let df1 := prepare_estab df
    let df2 := enrich_exact df1 df_coords
    let df3 := enrich_approximate df2 df_coords
    let df4 := if use_nominatim then (enrich_nominatim oracle df3 (11 / 10)).1 else df3
    .ok df4

/-- The full cascade as a per-row function (valid up to permutation once
the catalog is deduplicated). -/
def pipeRow (df_coords : List CoordRow) (use_nominatim : Bool)
    (oracle : String → GeoResp) (r : EstabRow) : EstabRow :=
  if use_nominatim then
    nomRow oracle (11 / 10) (approxRow df_coords (exactRow df_coords (prepRow r)))
  else approxRow df_coords (exactRow df_coords (prepRow r))

/-- At most one catalog row per `(CEP, NUM_ENDERECO)` key. -/
def keysUnique (l : List CoordRow) : Prop :=
  l.Pairwise (fun a b => ¬(a.CEP = b.CEP ∧ a.NUM_ENDERECO = b.NUM_ENDERECO))

/-- Latitude and longitude both present or both absent. -/
def bothOrNeither (r : EstabRow) : Prop :=
  r.LATITUDE.isSome = r.LONGITUDE.isSome

/-- Agreement on every field except the coordinate pair: the identity,
address and normalized key fields of the row are untouched. -/
def sameIdentity (a b : EstabRow) : Prop :=
  a.CNPJ_BASICO = b.CNPJ_BASICO ∧ a.CNPJ_ORDEM = b.CNPJ_ORDEM ∧
  a.CNPJ_DV = b.CNPJ_DV ∧ a.CNPJ = b.CNPJ ∧
  a.NOME_FANTASIA = b.NOME_FANTASIA ∧ a.TIPO_LOGRADOURO = b.TIPO_LOGRADOURO ∧
  a.LOGRADOURO = b.LOGRADOURO ∧ a.NUMERO = b.NUMERO ∧ a.BAIRRO = b.BAIRRO ∧
  a.CEP = b.CEP ∧ a.UF = b.UF

/-- The requests of a Nominatim event trace, in order. -/
def reqsOf (tr : List NomEvent) : List String :=
  tr.filterMap (fun e => match e with | .req q => some q | .sleep _ => none)

/-- Auxiliary scanner: `pending = true` means a request has been seen and
no sleep of at least `rate` has followed it yet. -/
def reqsSepAux (rate : ℚ) (pending : Bool) : List NomEvent → Bool
  | [] => true
  | .sleep t :: rest => reqsSepAux rate (pending && !(decide (rate ≤ t))) rest
  | .req _ :: rest => if pending then false else reqsSepAux rate true rest

/-- Every pair of consecutive requests in the trace is separated by a
sleep of at least `rate`. -/
def reqsSeparated (rate : ℚ) (tr : List NomEvent) : Bool :=
  reqsSepAux rate false tr

/-- The same-CEP candidate group consulted by the asof join for one
establishment. -/
def groupOf (df_coords : List CoordRow) (cep : String) : List CoordRow :=
  (coordsAsof df_coords).filter (fun c => c.CEP == cep)

/-- Every catalog row carries a full coordinate pair (guaranteed by the
filter in the loader). -/
def coordsOk (l : List CoordRow) : Prop :=
  ∀ c ∈ l, c.LATITUDE.isSome = true ∧ c.LONGITUDE.isSome = true

/-! ### Concrete fixtures for witnesses and counterexamples -/

/-- A minimal establishment row with the given CEP, street number, region
code and display name. -/
def estFix (cep num uf nome : String) : EstabRow :=
  { CNPJ_BASICO := "12345678", CNPJ_ORDEM := "1", CNPJ_DV := "42",
    NOME_FANTASIA := nome, TIPO_LOGRADOURO := "", LOGRADOURO := "",
    NUMERO := num, BAIRRO := "", CEP := cep, UF := uf }

/-- An establishment row whose coordinates are already resolved. -/
def estResolved : EstabRow :=
  { estFix "20000000" "10" "SP" "Loja" with
    LATITUDE := some (FVal.fin (-7)), LONGITUDE := some (FVal.fin (-8)) }

/-- Catalog rows at numbers 10 and 30 of one CEP (the configuration of the
approximate-match example in the specification). -/
def catFix : List CoordRow :=
  [{ COD_MUNICIPIO := 1, CEP := "20000000", NUM_ENDERECO := "10",
     LATITUDE := some (FVal.fin (-10)), LONGITUDE := some (FVal.fin (-20)),
     NUM_IBGE := some 10 },
   { COD_MUNICIPIO := 1, CEP := "20000000", NUM_ENDERECO := "30",
     LATITUDE := some (FVal.fin (-30)), LONGITUDE := some (FVal.fin (-40)),
     NUM_IBGE := some 30 }]

/-- A geocoder that always returns an accepted (negative, negative) hit. -/
def oracleAccept : String → GeoResp := fun _ => .found (.fin (-1)) (.fin (-1))

/-- A geocoder that always returns an empty result array. -/
def oracleEmpty : String → GeoResp := fun _ => .empty

/-- A catalog file holding one row with a NaN latitude. -/
def cfileNaN : CoordFile :=
  { columns := requiredCols,
    rows := [{ COD_MUNICIPIO := 1, CEP := "20000-000", NUM_ENDERECO := "10",
               LATITUDE := some FVal.nan, LONGITUDE := some (FVal.fin (-5)) }] }

/-- The row of `cfileNaN` as the loader returns it. -/
def rowNaN : CoordRow :=
  { COD_MUNICIPIO := 1, CEP := "20000000", NUM_ENDERECO := "10",
    LATITUDE := some FVal.nan, LONGITUDE := some (FVal.fin (-5)),
    NUM_IBGE := some 10 }

/-- A well-formed catalog file with no rows. -/
def cfileW : CoordFile := { columns := requiredCols, rows := [] }

/-- Result of one `enrich` run on a one-row batch against `cfileW`. -/
def outW1 : List EstabRow :=
  ((enrich (some cfileW) none false oracleEmpty
    [estFix "20000000" "10" "SP" "Padaria"]).toOption).getD []

/-- Result of re-running `enrich` on `outW1`. -/
def outW2 : List EstabRow :=
  ((enrich (some cfileW) none false oracleEmpty outW1).toOption).getD []

/-! ### String normalization lemmas -/

theorem lexLtCh_irrefl : ∀ l : List Char, lexLtCh l l = false := by
  intro l
  induction l with
  | nil => rfl
  | cons a as ih =>
    unfold lexLtCh
    rw [if_neg (lt_irrefl a), if_neg (lt_irrefl a)]
    exact ih

theorem lexLtCh_total : ∀ as bs : List Char,
    lexLtCh as bs = true ∨ lexLtCh bs as = true ∨ as = bs := by
  intro as
  induction as with
  | nil =>
    intro bs
    cases bs with
    | nil => exact Or.inr (Or.inr rfl)
    | cons b bs => exact Or.inl rfl
  | cons a as ih =>
    intro bs
    cases bs with
    | nil => exact Or.inr (Or.inl rfl)
    | cons b bs =>
      rcases lt_trichotomy a b with h | h | h
      · exact Or.inl (by unfold lexLtCh; rw [if_pos h])
      · subst h
        rcases ih bs with h' | h' | h'
        · exact Or.inl (by unfold lexLtCh; rw [if_neg (lt_irrefl a), if_neg (lt_irrefl a)]; exact h')
        · exact Or.inr (Or.inl (by unfold lexLtCh; rw [if_neg (lt_irrefl a), if_neg (lt_irrefl a)]; exact h'))
        · exact Or.inr (Or.inr (by rw [h']))
      · exact Or.inr (Or.inl (by unfold lexLtCh; rw [if_pos h]))

theorem lexLtCh_trans : ∀ {as bs cs : List Char},
    lexLtCh as bs = true → lexLtCh bs cs = true → lexLtCh as cs = true := by
  intro as
  induction as with
  | nil =>
    intro bs cs h1 h2
    cases bs with
    | nil => cases h1
    | cons b bs =>
      cases cs with
      | nil => cases h2
      | cons c cs => rfl
  | cons a as ih =>
    intro bs cs h1 h2
    cases bs with
    | nil => cases h1
    | cons b bs =>
      cases cs with
      | nil => cases h2
      | cons c cs =>
        unfold lexLtCh at h1 h2 ⊢
        by_cases hab : a < b
        · rw [if_pos hab] at h1
          by_cases hbc : b < c
          · rw [if_pos (hab.trans hbc)]
          · rw [if_neg hbc] at h2
            by_cases hcb : c < b
            · rw [if_pos hcb] at h2; cases h2
            · have : b = c := le_antisymm (not_lt.mp hcb) (not_lt.mp hbc)
              rw [if_pos (this ▸ hab)]
        · rw [if_neg hab] at h1
          by_cases hba : b < a
          · rw [if_pos hba] at h1; cases h1
          · have hab' : a = b := le_antisymm (not_lt.mp hba) (not_lt.mp hab)
            rw [if_neg hba] at h1
            by_cases hbc : b < c
            · rw [if_pos (hab' ▸ hbc)]
            · rw [if_neg hbc] at h2
              by_cases hcb : c < b
              · rw [if_pos hcb] at h2; cases h2
              · rw [if_neg hcb] at h2
                subst hab'
                rw [if_neg hbc, if_neg hcb]
                exact ih h1 h2

theorem string_eq_of_data {s t : String} (h : s.data = t.data) : s = t := by
  cases s
  cases t
  cases h
  rfl

theorem asofLe_isTotal : IsTotal CoordRow asofLe := by
  constructor
  intro a b
  rcases lexLtCh_total a.CEP.data b.CEP.data with h | h | h
  · exact Or.inl (Or.inl h)
  · exact Or.inr (Or.inl h)
  · have he : a.CEP = b.CEP := string_eq_of_data h
    rcases Nat.le_total (numOf a) (numOf b) with hn | hn
    · exact Or.inl (Or.inr ⟨he, hn⟩)
    · exact Or.inr (Or.inr ⟨he.symm, hn⟩)

theorem asofLe_isTrans : IsTrans CoordRow asofLe := by
  constructor
  intro a b c hab hbc
  rcases hab with h1 | ⟨e1, n1⟩
  · rcases hbc with h2 | ⟨e2, _⟩
    · exact Or.inl (lexLtCh_trans h1 h2)
    · exact Or.inl (by rw [← congrArg String.data e2]; exact h1)
  · rcases hbc with h2 | ⟨e2, n2⟩
    · exact Or.inl (by rw [congrArg String.data e1]; exact h2)
    · exact Or.inr ⟨e1.trans e2, n1.trans n2⟩


theorem digitStrip_data (s : String) :
    (digitStrip s).data = s.data.filter Char.isDigit := rfl

theorem digitStrip_all (s : String) :
    ∀ c ∈ (digitStrip s).data, c.isDigit = true := by
  intro c hc
  rw [digitStrip_data] at hc
  exact (List.mem_filter.mp hc).2

theorem digitStrip_of_all {s : String}
    (h : ∀ c ∈ s.data, c.isDigit = true) : digitStrip s = s := by
  cases s with
  | mk l =>
    show (⟨l.filter Char.isDigit⟩ : String) = ⟨l⟩
    congr 1
    exact List.filter_eq_self.mpr h

theorem digitStrip_idem (s : String) :
    digitStrip (digitStrip s) = digitStrip s :=
  digitStrip_of_all (digitStrip_all s)

theorem zfill_all {w : Nat} {s : String}
    (h : ∀ c ∈ s.data, c.isDigit = true) :
    ∀ c ∈ (zfill w s).data, c.isDigit = true := by
  unfold zfill
  split
  · exact h
  · split
    · rename_i c rest heq
      split
      · rename_i hsign
        exfalso
        have hc : c.isDigit = true := h c (heq ▸ List.mem_cons_self c rest)
        rcases hsign with h' | h' <;> rw [h'] at hc <;>
          exact absurd hc (by decide)
      · intro c' hc'
        rcases List.mem_append.mp hc' with h' | h'
        · simpa using (List.eq_of_mem_replicate h') ▸ (by decide : ('0').isDigit = true)
        · exact h c' h'
    · intro c' hc'
      simpa using (List.eq_of_mem_replicate hc') ▸ (by decide : ('0').isDigit = true)

theorem string_length_data (s : String) : s.length = s.data.length := rfl

theorem zfill_length_ge (w : Nat) (s : String) : w ≤ (zfill w s).length := by
  unfold zfill
  split
  · assumption
  · rename_i hlt
    split
    · rename_i c rest heq
      have hs : s.length = rest.length + 1 := by
        rw [string_length_data, heq]; simp
      split
      · show w ≤ (c :: (List.replicate (w - s.length) '0' ++ rest)).length
        simp [hs] at hlt ⊢
        omega
      · show w ≤ (List.replicate (w - s.length) '0' ++ s.data).length
        rw [List.length_append, List.length_replicate]
        have hsd : s.length = s.data.length := rfl
        omega
    · rename_i heq
      show w ≤ (List.replicate w '0').length
      simp

theorem zfill_idem (w : Nat) (s : String) :
    zfill w (zfill w s) = zfill w s := by
  rw [zfill, if_pos (zfill_length_ge w s)]

/-- Normalizing an already normalized CEP is the identity. -/
theorem norm_idem (s : String) :
    zfill 8 (digitStrip (zfill 8 (digitStrip s))) = zfill 8 (digitStrip s) := by
  rw [digitStrip_of_all (zfill_all (digitStrip_all s)), zfill_idem]

/-! ### Dedup lemmas -/

theorem mem_uniqueBy_mem {α κ : Type} [DecidableEq κ] (key : α → κ) :
    ∀ (l : List α) (seen : List κ) (a : α), a ∈ uniqueBy key l seen → a ∈ l := by
  intro l
  induction l with
  | nil => intro seen a h; simp [uniqueBy] at h
  | cons x xs ih =>
    intro seen a h
    rw [uniqueBy] at h
    split at h
    · exact List.mem_cons_of_mem x (ih _ _ h)
    · rcases List.mem_cons.mp h with h' | h'
      · exact h' ▸ List.mem_cons_self x xs
      · exact List.mem_cons_of_mem x (ih _ _ h')

theorem mem_uniqueBy_not_seen {α κ : Type} [DecidableEq κ] (key : α → κ) :
    ∀ (l : List α) (seen : List κ) (a : α),
      a ∈ uniqueBy key l seen → key a ∉ seen := by
  intro l
  induction l with
  | nil => intro seen a h; simp [uniqueBy] at h
  | cons x xs ih =>
    intro seen a h
    rw [uniqueBy] at h
    split at h
    · exact ih _ a h
    · rcases List.mem_cons.mp h with h' | h'
      · subst h'; assumption
      · intro hmem
        exact ih _ a h' (List.mem_cons_of_mem _ hmem)

theorem uniqueBy_pairwise {α κ : Type} [DecidableEq κ] (key : α → κ) :
    ∀ (l : List α) (seen : List κ),
      (uniqueBy key l seen).Pairwise (fun a b => key a ≠ key b) := by
  intro l
  induction l with
  | nil => intro seen; simp [uniqueBy]
  | cons x xs ih =>
    intro seen
    rw [uniqueBy]
    split
    · exact ih _
    · refine List.Pairwise.cons ?_ (ih _)
      intro b hb hkey
      exact mem_uniqueBy_not_seen key xs _ b hb (hkey ▸ List.mem_cons_self _ _)

/-! ### Loader output properties -/

theorem load_coords_ok_props {file : Option CoordFile}
    {codes : Option (List Int)} {out : List CoordRow}
    (h : load_coords file codes = .ok out) :
    ∀ r ∈ out, r.NUM_ENDERECO.length > 0 ∧ r.LATITUDE.isSome = true ∧
      r.LONGITUDE.isSome = true ∧ r.NUM_IBGE = parseNum r.NUM_ENDERECO := by
  intro r hr
  cases file with
  | none => simp [load_coords] at h
  | some f =>
    rw [load_coords.eq_def] at h
    dsimp only at h
    split at h
    · injection h with h
      subst h
      rcases List.mem_map.mp hr with ⟨r0, hr0, hmk⟩
      have hkept := mem_uniqueBy_mem _ _ _ _ hr0
      have hfil := (List.mem_filter.mp hkept).2
      simp only [Bool.and_eq_true, decide_eq_true_eq] at hfil
      subst hmk
      exact ⟨hfil.1.1, hfil.1.2, hfil.2, rfl⟩
    · exact absurd h (by simp)

theorem load_coords_ok_unique {file : Option CoordFile}
    {codes : Option (List Int)} {out : List CoordRow}
    (h : load_coords file codes = .ok out) : keysUnique out := by
  cases file with
  | none => simp [load_coords] at h
  | some f =>
    rw [load_coords.eq_def] at h
    dsimp only at h
    split at h
    · injection h with h
      subst h
      unfold keysUnique
      rw [List.pairwise_map]
      refine (uniqueBy_pairwise _ _ _).imp ?_
      intro a b hne h
      have hc : a.CEP = b.CEP := h.1
      have hn : a.NUM_ENDERECO = b.NUM_ENDERECO := h.2
      exact hne (Prod.ext hc hn)
    · exact absurd h (by simp)

/-! ### Per-row lemmas -/

theorem sameIdentity_refl (r : EstabRow) : sameIdentity r r :=
  ⟨rfl, rfl, rfl, rfl, rfl, rfl, rfl, rfl, rfl, rfl, rfl⟩

theorem fillCoords_sameIdentity (r : EstabRow) (la lo : Option FVal) :
    sameIdentity (fillCoords r la lo) r :=
  ⟨rfl, rfl, rfl, rfl, rfl, rfl, rfl, rfl, rfl, rfl, rfl⟩

theorem fillCoords_of_isSome {r : EstabRow} (la lo : Option FVal)
    (ha : r.LATITUDE ≠ none) (hb : r.LONGITUDE ≠ none) :
    fillCoords r la lo = r := by
  unfold fillCoords
  rw [if_neg ha, if_neg hb]

theorem exactRow_sameIdentity (df_coords : List CoordRow) (r : EstabRow) :
    sameIdentity (exactRow df_coords r) r := by
  unfold exactRow
  split <;> exact fillCoords_sameIdentity ..

theorem exactRow_resolved {r : EstabRow} (df_coords : List CoordRow)
    (ha : r.LATITUDE ≠ none) (hb : r.LONGITUDE ≠ none) :
    exactRow df_coords r = r := by
  unfold exactRow
  split <;> exact fillCoords_of_isSome _ _ ha hb

theorem approxRow_sameIdentity (df_coords : List CoordRow) (r : EstabRow) :
    sameIdentity (approxRow df_coords r) r := by
  unfold approxRow asofFill
  split
  · split <;> exact fillCoords_sameIdentity ..
  · exact sameIdentity_refl r

theorem approxRow_resolved {r : EstabRow} (df_coords : List CoordRow)
    (ha : r.LATITUDE ≠ none) (hb : r.LONGITUDE ≠ none) :
    approxRow df_coords r = r := by
  unfold approxRow asofFill
  split
  · split <;> exact fillCoords_of_isSome _ _ ha hb
  · rfl

theorem nomRow_sameIdentity (oracle : String → GeoResp) (rate : ℚ)
    (r : EstabRow) : sameIdentity (nomRow oracle rate r) r := by
  unfold nomRow
  split
  · exact sameIdentity_refl r
  · exact ⟨rfl, rfl, rfl, rfl, rfl, rfl, rfl, rfl, rfl, rfl, rfl⟩

theorem nomRow_resolved {r : EstabRow} (oracle : String → GeoResp) (rate : ℚ)
    (ha : r.LATITUDE ≠ none) : nomRow oracle rate r = r := by
  unfold nomRow
  rw [if_pos (Option.isSome_iff_ne_none.mpr ha)]

theorem nomiRow_sameIdentity (oracle : String → GeoResp) (rate : ℚ)
    (r : EstabRow) : sameIdentity (nomiRow oracle rate r).1 r :=
  ⟨rfl, rfl, rfl, rfl, rfl, rfl, rfl, rfl, rfl, rfl, rfl⟩

theorem nomiRow_lat (oracle : String → GeoResp) (rate : ℚ) (r : EstabRow) :
    (nomiRow oracle rate r).1.LATITUDE =
      (tryQueries oracle rate (nomQueries r)).1.1 := rfl

theorem nomiRow_lon (oracle : String → GeoResp) (rate : ℚ) (r : EstabRow) :
    (nomiRow oracle rate r).1.LONGITUDE =
      (tryQueries oracle rate (nomQueries r)).1.2 := rfl

/-! ### Stage / per-row correspondence -/

theorem flatMap_eq_map_of {α β : Type} (f : α → List β) (g : α → β)
    (l : List α) (h : ∀ a ∈ l, f a = [g a]) : l.flatMap f = l.map g := by
  induction l with
  | nil => rfl
  | cons x xs ih =>
    simp only [List.flatMap_cons, List.map_cons, h x (List.mem_cons_self x xs)]
    rw [ih (fun a ha => h a (List.mem_cons_of_mem x ha))]
    rfl

theorem filter_eq_nil_or_singleton {α : Type} {p : α → Bool} {l : List α}
    (h : l.Pairwise (fun a b => ¬(p a = true ∧ p b = true))) :
    l.filter p = [] ∨ ∃ c, l.filter p = [c] := by
  induction l with
  | nil => exact Or.inl rfl
  | cons x xs ih =>
    rcases List.pairwise_cons.mp h with ⟨hx, hxs⟩
    by_cases hp : p x = true
    · right
      refine ⟨x, ?_⟩
      rw [List.filter_cons_of_pos hp]
      have : xs.filter p = [] := List.filter_eq_nil_iff.mpr
        (fun b hb hpb => hx b hb ⟨hp, hpb⟩)
      rw [this]
    · rw [List.filter_cons_of_neg (by simpa using hp)]
      exact ih hxs

theorem enrich_exact_eq_map {df_coords : List CoordRow}
    (hu : keysUnique df_coords) (df : List EstabRow) :
    enrich_exact df df_coords = df.map (exactRow df_coords) := by
  apply flatMap_eq_map_of
  intro r _
  have hpair : df_coords.Pairwise (fun a b =>
      ¬((a.CEP == r.CEP && a.NUM_ENDERECO == r.NUMERO) = true ∧
        (b.CEP == r.CEP && b.NUM_ENDERECO == r.NUMERO) = true)) := by
    refine hu.imp ?_
    intro a b hne h
    rcases h with ⟨ha, hb⟩
    simp only [Bool.and_eq_true, beq_iff_eq] at ha hb
    exact hne ⟨ha.1.trans hb.1.symm, ha.2.trans hb.2.symm⟩
  rcases filter_eq_nil_or_singleton hpair with hnil | ⟨c, hc⟩
  · simp [hnil, exactRow]
  · simp [hc, exactRow]

theorem enrich_approximate_perm (df : List EstabRow)
    (df_coords : List CoordRow) :
    (enrich_approximate df df_coords).Perm (df.map (approxRow df_coords)) := by
  unfold enrich_approximate
  split
  · rename_i hemp
    have hsortnil : List.insertionSort estLe
        (df.filter (fun r => (parseNum r.NUMERO).isSome)) = [] :=
      List.isEmpty_iff.mp hemp
    have hperm := List.perm_insertionSort estLe
      (df.filter (fun r => (parseNum r.NUMERO).isSome))
    rw [hsortnil] at hperm
    have hfil : df.filter (fun r => (parseNum r.NUMERO).isSome) = [] :=
      hperm.symm.eq_nil
    have hid : ∀ r ∈ df, approxRow df_coords r = r := by
      intro r hr
      have hno : ¬((parseNum r.NUMERO).isSome = true) :=
        List.filter_eq_nil_iff.mp hfil r hr
      unfold approxRow
      cases hp : parseNum r.NUMERO with
      | none => rfl
      | some x => exact absurd (by rw [hp]; rfl) hno
    rw [List.map_congr_left hid, List.map_id']
  · have e1 : (df.filter (fun r => !(parseNum r.NUMERO).isSome)).map
        (approxRow df_coords) =
        df.filter (fun r => !(parseNum r.NUMERO).isSome) := by
      refine (List.map_congr_left ?_).trans (List.map_id' _)
      intro r hr
      have hno := (List.mem_filter.mp hr).2
      simp only [Bool.not_eq_true'] at hno
      unfold approxRow
      cases hp : parseNum r.NUMERO with
      | none => rfl
      | some x => rw [hp] at hno; simp at hno
    have h1 : ((List.insertionSort estLe
          (df.filter (fun r => (parseNum r.NUMERO).isSome))).map
            (approxRow df_coords) ++
          df.filter (fun r => !(parseNum r.NUMERO).isSome)).Perm
        ((df.filter (fun r => (parseNum r.NUMERO).isSome)).map
            (approxRow df_coords) ++
          (df.filter (fun r => !(parseNum r.NUMERO).isSome)).map
            (approxRow df_coords)) := by
      rw [e1]
      exact ((List.perm_insertionSort estLe _).map _).append_right _
    refine h1.trans ?_
    rw [← List.map_append]
    exact (List.filter_append_perm _ df).map _

theorem enrich_nominatim_perm (oracle : String → GeoResp) (df : List EstabRow)
    (rate : ℚ) :
    (enrich_nominatim oracle df rate).1.Perm (df.map (nomRow oracle rate)) := by
  unfold enrich_nominatim
  split
  · rename_i hemp
    have hfil : df.filter (fun r => !r.LATITUDE.isSome) = [] :=
      List.isEmpty_iff.mp hemp
    have hid : ∀ r ∈ df, nomRow oracle rate r = r := by
      intro r hr
      have hno := List.filter_eq_nil_iff.mp hfil r hr
      simp only [Bool.not_eq_true', Bool.not_eq_false] at hno
      unfold nomRow
      rw [if_pos hno]
    rw [List.map_congr_left hid, List.map_id']
  · have e0 : df.filter (fun r => r.LATITUDE.isSome) =
        (df.filter (fun r => r.LATITUDE.isSome)).map (nomRow oracle rate) := by
      refine ((List.map_congr_left ?_).trans (List.map_id' _)).symm
      intro r hr
      have hy := (List.mem_filter.mp hr).2
      unfold nomRow
      rw [if_pos hy]
    have e1 : ((df.filter (fun r => !r.LATITUDE.isSome)).map
          (nomiRow oracle rate)).map Prod.fst =
        (df.filter (fun r => !r.LATITUDE.isSome)).map (nomRow oracle rate) := by
      rw [List.map_map]
      refine List.map_congr_left ?_
      intro r hr
      have hno := (List.mem_filter.mp hr).2
      simp only [Bool.not_eq_true'] at hno
      show (nomiRow oracle rate r).1 = nomRow oracle rate r
      unfold nomRow
      rw [if_neg (by rw [hno]; exact Bool.false_ne_true)]
    show (df.filter (fun r => r.LATITUDE.isSome) ++
        ((df.filter (fun r => !r.LATITUDE.isSome)).map
          (nomiRow oracle rate)).map Prod.fst).Perm _
    rw [e0, e1, ← List.map_append]
    exact (List.filter_append_perm _ df).map _

theorem enrich_ok_perm {file : Option CoordFile} {codes : Option (List Int)}
    {flag : Bool} {oracle : String → GeoResp} {df out : List EstabRow}
    (h : enrich file codes flag oracle df = .ok out) :
    ∃ df_coords, load_coords file codes = .ok df_coords ∧
      out.Perm (df.map (pipeRow df_coords flag oracle)) := by
  unfold enrich at h
  cases hl : load_coords file codes with
  | error e => rw [hl] at h; exact absurd h (by simp)
  | ok df_coords =>
    rw [hl] at h
    injection h with h
    refine ⟨df_coords, rfl, ?_⟩
    subst h
    have hu := load_coords_ok_unique hl
    have h2 : enrich_exact (prepare_estab df) df_coords =
        df.map (fun r => exactRow df_coords (prepRow r)) := by
      rw [enrich_exact_eq_map hu, prepare_estab, List.map_map]
      rfl
    have h3 : (enrich_approximate
          (enrich_exact (prepare_estab df) df_coords) df_coords).Perm
        (df.map (fun r => approxRow df_coords (exactRow df_coords (prepRow r)))) := by
      refine (enrich_approximate_perm _ _).trans ?_
      rw [h2, List.map_map]
      rfl
    cases flag with
    | false =>
      simpa only [if_neg (by decide : ¬False)] using h3
    | true =>
      refine (enrich_nominatim_perm oracle _ (11 / 10)).trans ?_
      refine (h3.map (nomRow oracle (11 / 10))).trans ?_
      rw [List.map_map]
      rfl

/-! ### Nearest-match lemmas -/

theorem nearestAsof_isSome {x : Nat} :
    ∀ {l : List CoordRow}, l ≠ [] → (nearestAsof x l).isSome = true := by
  intro l h
  cases l with
  | nil => exact absurd rfl h
  | cons c rest =>
    unfold nearestAsof
    cases nearestAsof x rest with
    | none => rfl
    | some b =>
      dsimp only
      split <;> rfl

theorem nearestAsof_mem {x : Nat} :
    ∀ {l : List CoordRow} {c}, nearestAsof x l = some c → c ∈ l := by
  intro l
  induction l with
  | nil => intro c h; simp [nearestAsof] at h
  | cons c0 rest ih =>
    intro c h
    unfold nearestAsof at h
    cases hb : nearestAsof x rest with
    | none =>
      rw [hb] at h
      injection h with h
      exact h ▸ List.mem_cons_self _ _
    | some b =>
      rw [hb] at h
      dsimp only at h
      split at h <;> injection h with h
      · exact List.mem_cons_of_mem _ (h ▸ ih hb)
      · exact h ▸ List.mem_cons_self _ _

theorem nearestAsof_min {x : Nat} :
    ∀ {l : List CoordRow} {c}, nearestAsof x l = some c →
      ∀ c' ∈ l, Nat.dist (numOf c) x ≤ Nat.dist (numOf c') x := by
  intro l
  induction l with
  | nil => intro c h; simp [nearestAsof] at h
  | cons c0 rest ih =>
    intro c h c' hc'
    unfold nearestAsof at h
    cases hb : nearestAsof x rest with
    | none =>
      rw [hb] at h
      injection h with h
      subst h
      have hrest : rest = [] := by
        by_contra hne
        rw [(Option.isSome_iff_exists.mp (nearestAsof_isSome hne)).choose_spec] at hb
        exact absurd hb (by simp)
      rcases List.mem_cons.mp hc' with h' | h'
      · rw [h']
      · rw [hrest] at h'; cases h'
    | some b =>
      rw [hb] at h
      dsimp only at h
      split at h <;> injection h with h <;> subst h
      · rename_i hlt
        rcases List.mem_cons.mp hc' with h' | h'
        · exact h' ▸ hlt.le
        · exact ih hb c' h'
      · rename_i hnlt
        rcases List.mem_cons.mp hc' with h' | h'
        · exact h' ▸ le_rfl
        · exact (Nat.le_of_not_lt hnlt).trans (ih hb c' h')

theorem nearestAsof_tie {x : Nat} :
    ∀ {l : List CoordRow} {c},
      l.Sorted (fun a b => numOf a ≤ numOf b) → nearestAsof x l = some c →
      ∀ c' ∈ l, Nat.dist (numOf c') x = Nat.dist (numOf c) x →
        numOf c ≤ numOf c' := by
  intro l
  induction l with
  | nil => intro c _ h; simp [nearestAsof] at h
  | cons c0 rest ih =>
    intro c hsort h c' hc' heq
    rcases List.sorted_cons.mp hsort with ⟨hhead, hrest⟩
    unfold nearestAsof at h
    cases hb : nearestAsof x rest with
    | none =>
      rw [hb] at h
      injection h with h
      subst h
      rcases List.mem_cons.mp hc' with h' | h'
      · rw [h']
      · exact hhead c' h'
    | some b =>
      rw [hb] at h
      dsimp only at h
      split at h <;> injection h with h <;> subst h
      · rename_i hlt
        rcases List.mem_cons.mp hc' with h' | h'
        · exfalso
          rw [h'] at heq
          exact absurd heq.symm (Nat.ne_of_lt hlt)
        · exact ih hrest hb c' h' heq
      · rcases List.mem_cons.mp hc' with h' | h'
        · rw [h']
        · exact hhead c' h'

theorem coordsAsof_sorted (df_coords : List CoordRow) :
    (coordsAsof df_coords).Sorted asofLe := by
  haveI := asofLe_isTotal
  haveI := asofLe_isTrans
  exact List.sorted_insertionSort asofLe _

theorem groupOf_sorted (df_coords : List CoordRow) (cep : String) :
    (groupOf df_coords cep).Sorted (fun a b => numOf a ≤ numOf b) := by
  have h1 : (groupOf df_coords cep).Sorted asofLe :=
    (coordsAsof_sorted df_coords).sublist (List.filter_sublist _)
  refine h1.imp_of_mem ?_
  intro a b ha hb hle
  have ea : a.CEP = cep := by
    have := (List.mem_filter.mp ha).2
    simpa using this
  have eb : b.CEP = cep := by
    have := (List.mem_filter.mp hb).2
    simpa using this
  rcases hle with hlt | ⟨_, hn⟩
  · rw [ea, eb] at hlt
    rw [lexLtCh_irrefl] at hlt
    cases hlt
  · exact hn

theorem mem_groupOf {df_coords : List CoordRow} {cep : String} {c : CoordRow}
    (h : c ∈ groupOf df_coords cep) :
    c ∈ df_coords ∧ c.CEP = cep ∧ c.NUM_IBGE.isSome = true := by
  have h1 := List.mem_filter.mp h
  have h2 : c ∈ coordsAsof df_coords := h1.1
  have h3 : c ∈ df_coords.filter (fun c => c.NUM_IBGE.isSome) := by
    unfold coordsAsof at h2
    exact (List.mem_insertionSort asofLe).mp h2
  have h4 := List.mem_filter.mp h3
  exact ⟨h4.1, by simpa using h1.2, h4.2⟩

/-! ### Nominatim per-row lemmas -/

theorem tryQueries_shape (oracle : String → GeoResp) (rate : ℚ) :
    ∀ qs : List String, (tryQueries oracle rate qs).1 = (none, none) ∨
      ∃ la lo, (tryQueries oracle rate qs).1 = (some la, some lo) ∧
        la.isLtZero = true ∧ lo.isLtZero = true := by
  intro qs
  induction qs with
  | nil => exact Or.inl rfl
  | cons q0 rest ih =>
    unfold tryQueries
    split
    · exact ih
    · cases horacle : oracle (pyStrip q0) with
      | found la lo =>
        dsimp only
        split
        · rename_i hacc
          rcases Bool.and_eq_true .. |>.mp hacc with ⟨h1, h2⟩
          exact Or.inr ⟨la, lo, rfl, h1, h2⟩
        · exact ih
      | fail => exact ih
      | empty => exact ih

theorem nomiRow_both (oracle : String → GeoResp) (rate : ℚ) (r : EstabRow) :
    bothOrNeither (nomiRow oracle rate r).1 := by
  unfold bothOrNeither nomiRow
  rcases tryQueries_shape oracle rate (nomQueries r) with h | ⟨la, lo, h, _, _⟩ <;>
    simp [h]

/-! ### Both-or-neither lemmas -/

theorem load_coords_ok_coordsOk {file : Option CoordFile}
    {codes : Option (List Int)} {out : List CoordRow}
    (h : load_coords file codes = .ok out) : coordsOk out := by
  intro c hc
  have := load_coords_ok_props h c hc
  exact ⟨this.2.1, this.2.2.1⟩

theorem fillCoords_both {r : EstabRow} (hr : bothOrNeither r)
    {la lo : Option FVal} (h : la.isSome = lo.isSome) :
    bothOrNeither (fillCoords r la lo) := by
  unfold bothOrNeither at hr ⊢
  show (if r.LATITUDE = none then la else r.LATITUDE).isSome =
    (if r.LONGITUDE = none then lo else r.LONGITUDE).isSome
  by_cases hA : r.LATITUDE = none
  · have hB : r.LONGITUDE = none := by
      rw [hA] at hr
      exact Option.not_isSome_iff_eq_none.mp (fun hs => by rw [hs] at hr; cases hr)
    rw [if_pos hA, if_pos hB]
    exact h
  · have hB : r.LONGITUDE ≠ none := by
      intro hB
      rw [hB] at hr
      exact hA (Option.not_isSome_iff_eq_none.mp (fun hs => by rw [hs] at hr; cases hr))
    rw [if_neg hA, if_neg hB]
    exact hr

theorem exactRow_both {df_coords : List CoordRow} (hok : coordsOk df_coords)
    {r : EstabRow} (hr : bothOrNeither r) :
    bothOrNeither (exactRow df_coords r) := by
  unfold exactRow
  cases hh : (df_coords.filter
      (fun c => c.CEP == r.CEP && c.NUM_ENDERECO == r.NUMERO)).head? with
  | none => exact fillCoords_both hr rfl
  | some c =>
    have hcmem : c ∈ df_coords :=
      (List.mem_filter.mp (List.mem_of_mem_head? (by rw [hh]; rfl))).1
    have hc := hok c hcmem
    exact fillCoords_both hr (hc.1.trans hc.2.symm)

theorem approxRow_both {df_coords : List CoordRow} (hok : coordsOk df_coords)
    {r : EstabRow} (hr : bothOrNeither r) :
    bothOrNeither (approxRow df_coords r) := by
  unfold approxRow asofFill
  cases parseNum r.NUMERO with
  | none => exact hr
  | some x =>
    dsimp only
    cases hn : nearestAsof x
        ((coordsAsof df_coords).filter (fun c => c.CEP == r.CEP)) with
    | none => exact fillCoords_both hr rfl
    | some c =>
      have hcmem : c ∈ df_coords := (mem_groupOf (nearestAsof_mem hn)).1
      have hc := hok c hcmem
      exact fillCoords_both hr (hc.1.trans hc.2.symm)

theorem nomRow_both (oracle : String → GeoResp) (rate : ℚ) {r : EstabRow}
    (hr : bothOrNeither r) : bothOrNeither (nomRow oracle rate r) := by
  unfold nomRow
  split
  · exact hr
  · exact nomiRow_both oracle rate r

theorem prepRow_both (r : EstabRow) : bothOrNeither (prepRow r) := rfl

theorem pipeRow_both {df_coords : List CoordRow} (hok : coordsOk df_coords)
    (flag : Bool) (oracle : String → GeoResp) (r : EstabRow) :
    bothOrNeither (pipeRow df_coords flag oracle r) := by
  unfold pipeRow
  cases flag with
  | false => exact approxRow_both hok (exactRow_both hok (prepRow_both r))
  | true =>
    exact nomRow_both oracle _ (approxRow_both hok (exactRow_both hok (prepRow_both r)))

/-! ### Idempotence lemmas -/

theorem sameIdentity_trans {a b c : EstabRow} (h1 : sameIdentity a b)
    (h2 : sameIdentity b c) : sameIdentity a c := by
  obtain ⟨a1, a2, a3, a4, a5, a6, a7, a8, a9, a10, a11⟩ := h1
  obtain ⟨b1, b2, b3, b4, b5, b6, b7, b8, b9, b10, b11⟩ := h2
  exact ⟨a1.trans b1, a2.trans b2, a3.trans b3, a4.trans b4, a5.trans b5,
    a6.trans b6, a7.trans b7, a8.trans b8, a9.trans b9, a10.trans b10,
    a11.trans b11⟩

theorem pipeRow_identity (df_coords : List CoordRow) (flag : Bool)
    (oracle : String → GeoResp) (r : EstabRow) :
    sameIdentity (pipeRow df_coords flag oracle r) (prepRow r) := by
  unfold pipeRow
  cases flag with
  | false =>
    exact sameIdentity_trans (approxRow_sameIdentity ..) (exactRow_sameIdentity ..)
  | true =>
    exact sameIdentity_trans (nomRow_sameIdentity ..)
      (sameIdentity_trans (approxRow_sameIdentity ..) (exactRow_sameIdentity ..))

theorem prepRow_eq_of_sameIdentity {y r : EstabRow}
    (h : sameIdentity y (prepRow r)) : prepRow y = prepRow r := by
  obtain ⟨e1, e2, e3, e4, e5, e6, e7, e8, e9, e10, e11⟩ := h
  simp only [prepRow, EstabRow.mk.injEq]
  refine ⟨e1, e2, e3, ?_, e5, e6, e7, ?_, e9, ?_, e11, trivial, trivial⟩
  · rw [e1, e2, e3]
    rfl
  · rw [e8]
    exact digitStrip_idem r.NUMERO
  · rw [e10]
    exact norm_idem r.CEP

theorem pipeRow_idem (df_coords : List CoordRow) (flag : Bool)
    (oracle : String → GeoResp) (r : EstabRow) :
    pipeRow df_coords flag oracle (pipeRow df_coords flag oracle r) =
      pipeRow df_coords flag oracle r := by
  have hp : prepRow (pipeRow df_coords flag oracle r) = prepRow r :=
    prepRow_eq_of_sameIdentity (pipeRow_identity df_coords flag oracle r)
  cases flag with
  | false =>
    show approxRow df_coords (exactRow df_coords
      (prepRow (pipeRow df_coords false oracle r))) = pipeRow df_coords false oracle r
    rw [hp]
    rfl
  | true =>
    show nomRow oracle (11 / 10) (approxRow df_coords (exactRow df_coords
      (prepRow (pipeRow df_coords true oracle r)))) = pipeRow df_coords true oracle r
    rw [hp]
    rfl

/-! ### Claim theorems -/

/-- C1: Row-count invariant.  Each cascade stage (exact, approximate,
Nominatim) returns a batch of exactly the length of its input; the full
`enrich` pipeline preserves the input length; and each stage is, up to
permutation, a per-row map whose per-row function changes only the
coordinate fields — so no row is dropped, inserted, or duplicated.  The
exact stage requires the catalog keys to be unique, which the dedup step of
the loader guarantees. -/
theorem rowCountInvariant (df : List EstabRow) (df_coords : List CoordRow)
    (oracle : String → GeoResp) (rate : ℚ) (file : Option CoordFile)
    (codes : Option (List Int)) (flag : Bool) (hu : keysUnique df_coords) :
    (enrich_exact df df_coords).length = df.length ∧
    (enrich_approximate df df_coords).length = df.length ∧
    (enrich_nominatim oracle df rate).1.length = df.length ∧
    (∀ out, enrich file codes flag oracle df = .ok out →
      out.length = df.length) ∧
    enrich_exact df df_coords = df.map (exactRow df_coords) ∧
    (enrich_approximate df df_coords).Perm (df.map (approxRow df_coords)) ∧
    (enrich_nominatim oracle df rate).1.Perm (df.map (nomRow oracle rate)) ∧
    (∀ r, sameIdentity (exactRow df_coords r) r) ∧
    (∀ r, sameIdentity (approxRow df_coords r) r) ∧
    (∀ r, sameIdentity (nomRow oracle rate r) r) := by
  have hex := enrich_exact_eq_map hu df
  have hap := enrich_approximate_perm df df_coords
  have hn := enrich_nominatim_perm oracle df rate
  refine ⟨?_, ?_, ?_, ?_, hex, hap, hn, exactRow_sameIdentity df_coords,
    approxRow_sameIdentity df_coords, nomRow_sameIdentity oracle rate⟩
  · rw [hex, List.length_map]
  · rw [hap.length_eq, List.length_map]
  · rw [hn.length_eq, List.length_map]
  · intro out hout
    obtain ⟨c, _, hp⟩ := enrich_ok_perm hout
    rw [hp.length_eq, List.length_map]

theorem rowCountInvariant_witness :
    (enrich_exact [estFix "20000000" "18" "SP" "A"] catFix).length = 1 := by
  have h := rowCountInvariant [estFix "20000000" "18" "SP" "A"] catFix
    oracleEmpty (11 / 10) none none false (by unfold keysUnique; decide)
  exact h.1

/-- C2: Non-overwrite invariant.  A row whose latitude and longitude are
both set is a fixed point of each per-row stage function, and it reappears
unchanged in the output of each stage it enters. -/
theorem nonOverwriteInvariant (df_coords : List CoordRow)
    (oracle : String → GeoResp) (rate : ℚ) (df : List EstabRow)
    (r : EstabRow) (a b : FVal)
    (ha : r.LATITUDE = some a) (hb : r.LONGITUDE = some b) :
    exactRow df_coords r = r ∧ approxRow df_coords r = r ∧
    nomRow oracle rate r = r ∧
    (r ∈ df → keysUnique df_coords →
      r ∈ enrich_exact df df_coords ∧
      r ∈ enrich_approximate df df_coords ∧
      r ∈ (enrich_nominatim oracle df rate).1) := by
  have ha' : r.LATITUDE ≠ none := by rw [ha]; exact Option.some_ne_none a
  have hb' : r.LONGITUDE ≠ none := by rw [hb]; exact Option.some_ne_none b
  have he := exactRow_resolved df_coords ha' hb'
  have hap := approxRow_resolved df_coords ha' hb'
  have hn := nomRow_resolved oracle rate ha'
  refine ⟨he, hap, hn, ?_⟩
  intro hmem hu
  refine ⟨?_, ?_, ?_⟩
  · rw [enrich_exact_eq_map hu]
    exact he ▸ List.mem_map_of_mem _ hmem
  · exact (enrich_approximate_perm df df_coords).mem_iff.mpr
      (hap ▸ List.mem_map_of_mem _ hmem)
  · exact (enrich_nominatim_perm oracle df rate).mem_iff.mpr
      (hn ▸ List.mem_map_of_mem _ hmem)

theorem nonOverwriteInvariant_witness :
    exactRow catFix estResolved = estResolved := by
  have h := nonOverwriteInvariant catFix oracleAccept (11 / 10) [estResolved]
    estResolved (FVal.fin (-7)) (FVal.fin (-8)) rfl rfl
  exact h.1

/-- C9: Both-or-neither coordinate pairs.  After normalization every row has
both coordinates null; each stage maps rows with a both-or-neither pair to
rows with a both-or-neither pair (the matching stages additionally use that
every catalog row carries a full pair, which the loader guarantees); and
every row of a successful `enrich` run satisfies both-or-neither without any
assumption on the input batch. -/
theorem bothOrNeitherInvariant (df : List EstabRow) (df_coords : List CoordRow)
    (oracle : String → GeoResp) (rate : ℚ) (file : Option CoordFile)
    (codes : Option (List Int)) (flag : Bool) :
    (∀ r ∈ prepare_estab df, bothOrNeither r) ∧
    (coordsOk df_coords → (∀ r ∈ df, bothOrNeither r) →
      (∀ x ∈ enrich_exact df df_coords, bothOrNeither x) ∧
      (∀ x ∈ enrich_approximate df df_coords, bothOrNeither x)) ∧
    ((∀ r ∈ df, bothOrNeither r) →
      ∀ x ∈ (enrich_nominatim oracle df rate).1, bothOrNeither x) ∧
    (∀ out, enrich file codes flag oracle df = .ok out →
      ∀ x ∈ out, bothOrNeither x) := by
  refine ⟨?_, ?_, ?_, ?_⟩
  · intro r hr
    rcases List.mem_map.mp hr with ⟨r0, _, hm⟩
    exact hm ▸ prepRow_both r0
  · intro hok hall
    constructor
    · intro x hx
      rcases List.mem_flatMap.mp hx with ⟨r, hmem, hblk⟩
      split at hblk
      · rw [List.mem_singleton.mp hblk]
        exact fillCoords_both (hall r hmem) rfl
      · rcases List.mem_map.mp hblk with ⟨c, hcmem, hfc⟩
        have hc := hok c (List.mem_filter.mp hcmem).1
        exact hfc ▸ fillCoords_both (hall r hmem) (hc.1.trans hc.2.symm)
    · intro x hx
      have hx' := (enrich_approximate_perm df df_coords).mem_iff.mp hx
      rcases List.mem_map.mp hx' with ⟨r, hmem, hm⟩
      exact hm ▸ approxRow_both hok (hall r hmem)
  · intro hall x hx
    have hx' := (enrich_nominatim_perm oracle df rate).mem_iff.mp hx
    rcases List.mem_map.mp hx' with ⟨r, hmem, hm⟩
    exact hm ▸ nomRow_both oracle rate (hall r hmem)
  · intro out hout x hx
    obtain ⟨c, hl, hp⟩ := enrich_ok_perm hout
    have hx' := hp.mem_iff.mp hx
    rcases List.mem_map.mp hx' with ⟨r, hmem, hm⟩
    exact hm ▸ pipeRow_both (load_coords_ok_coordsOk hl) flag oracle r

theorem bothOrNeitherInvariant_witness :
    bothOrNeither (prepRow (estFix "20000000" "18" "SP" "A")) := by
  have h := bothOrNeitherInvariant [estFix "20000000" "18" "SP" "A"] catFix
    oracleEmpty (11 / 10) none none false
  exact h.1 _ (List.mem_map_of_mem _ (List.mem_cons_self _ _))

/-- C10: Idempotence of the cascade.  Re-running the full `enrich` pipeline
(with the same catalog file and the same geocoder behavior) on an
already-enriched batch yields the same rows again: the second output is a
permutation of the first, so every row carries identical coordinates. -/
theorem cascadeIdempotent {file : Option CoordFile} {codes : Option (List Int)}
    {flag : Bool} {oracle : String → GeoResp} {df out1 out2 : List EstabRow}
    (h1 : enrich file codes flag oracle df = .ok out1)
    (h2 : enrich file codes flag oracle out1 = .ok out2) :
    out2.Perm out1 := by
  obtain ⟨c1, hl1, hp1⟩ := enrich_ok_perm h1
  obtain ⟨c2, hl2, hp2⟩ := enrich_ok_perm h2
  rw [hl1] at hl2
  injection hl2 with hc
  subst hc
  have hmap : (df.map (pipeRow c1 flag oracle)).map (pipeRow c1 flag oracle) =
      df.map (pipeRow c1 flag oracle) := by
    rw [List.map_map]
    exact List.map_congr_left (fun r _ => pipeRow_idem c1 flag oracle r)
  have h3 := hp1.map (pipeRow c1 flag oracle)
  rw [hmap] at h3
  exact hp2.trans (h3.trans hp1.symm)

theorem cascadeIdempotent_witness : outW2.Perm outW1 :=
  @cascadeIdempotent (some cfileW) none false oracleEmpty
    [estFix "20000000" "10" "SP" "Padaria"] outW1 outW2 rfl rfl

/-- C3: Approximate-match correctness with smaller-number tie-break.  For an
unresolved establishment with a numeric street number whose CEP group in the
numeric catalog is non-empty, the approximate stage assigns the coordinates
of a group row whose numeric street number minimizes the absolute difference
to the establishment number, and on an exact-distance tie that row carries
the smallest number among the candidates; the updated row appears in the
stage output. -/
theorem approxNearestMatch (df : List EstabRow) (df_coords : List CoordRow)
    (r : EstabRow) (x : Nat) (hmem : r ∈ df) (hla : r.LATITUDE = none)
    (hlo : r.LONGITUDE = none) (hx : parseNum r.NUMERO = some x)
    (hgrp : groupOf df_coords r.CEP ≠ []) :
    ∃ c ∈ groupOf df_coords r.CEP,
      (approxRow df_coords r).LATITUDE = c.LATITUDE ∧
      (approxRow df_coords r).LONGITUDE = c.LONGITUDE ∧
      (∀ d ∈ groupOf df_coords r.CEP,
        Nat.dist (numOf c) x ≤ Nat.dist (numOf d) x) ∧
      (∀ d ∈ groupOf df_coords r.CEP,
        Nat.dist (numOf d) x = Nat.dist (numOf c) x → numOf c ≤ numOf d) ∧
      approxRow df_coords r ∈ enrich_approximate df df_coords := by
  have hs := nearestAsof_isSome (x := x) hgrp
  obtain ⟨c, hc⟩ := Option.isSome_iff_exists.mp hs
  unfold groupOf at hc
  have hrow : approxRow df_coords r = fillCoords r c.LATITUDE c.LONGITUDE := by
    unfold approxRow
    rw [hx]
    show asofFill (coordsAsof df_coords) x r = _
    unfold asofFill
    rw [hc]
  refine ⟨c, ?_, ?_, ?_, nearestAsof_min hc, ?_, ?_⟩
  · exact nearestAsof_mem hc
  · rw [hrow]
    show (if r.LATITUDE = none then c.LATITUDE else r.LATITUDE) = c.LATITUDE
    rw [if_pos hla]
  · rw [hrow]
    show (if r.LONGITUDE = none then c.LONGITUDE else r.LONGITUDE) = c.LONGITUDE
    rw [if_pos hlo]
  · exact fun d hd he => nearestAsof_tie (groupOf_sorted df_coords r.CEP) hc d hd he
  · exact (enrich_approximate_perm df df_coords).mem_iff.mpr
      (List.mem_map_of_mem _ hmem)

theorem approxNearestMatch_witness :
    (approxRow catFix (estFix "20000000" "18" "SP" "A")).LATITUDE =
      some (FVal.fin (-10)) ∧
    (approxRow catFix (estFix "20000000" "21" "SP" "A")).LATITUDE =
      some (FVal.fin (-30)) ∧
    (approxRow catFix (estFix "20000000" "20" "SP" "A")).LATITUDE =
      some (FVal.fin (-10)) ∧
    (∃ c ∈ groupOf catFix (estFix "20000000" "20" "SP" "A").CEP,
      (approxRow catFix (estFix "20000000" "20" "SP" "A")).LATITUDE =
        c.LATITUDE ∧
      (approxRow catFix (estFix "20000000" "20" "SP" "A")).LONGITUDE =
        c.LONGITUDE ∧
      (∀ d ∈ groupOf catFix (estFix "20000000" "20" "SP" "A").CEP,
        Nat.dist (numOf c) 20 ≤ Nat.dist (numOf d) 20) ∧
      (∀ d ∈ groupOf catFix (estFix "20000000" "20" "SP" "A").CEP,
        Nat.dist (numOf d) 20 = Nat.dist (numOf c) 20 → numOf c ≤ numOf d) ∧
      approxRow catFix (estFix "20000000" "20" "SP" "A") ∈
        enrich_approximate [estFix "20000000" "20" "SP" "A"] catFix) := by
  refine ⟨rfl, rfl, rfl, ?_⟩
  exact approxNearestMatch [estFix "20000000" "20" "SP" "A"] catFix
    (estFix "20000000" "20" "SP" "A") 20
    (List.mem_cons_self _ _) rfl rfl (by decide) (by decide)

/-- C5: Hemisphere filter.  The variant loop only ever produces a
coordinate pair whose latitude and longitude are both strictly negative; a
`found` response failing the check is treated as no match (the loop sleeps
and moves on to the next variant); and every row of the Nominatim stage
output either passed through already resolved or carries only
strictly-negative written coordinates. -/
theorem hemisphereFilter (oracle : String → GeoResp) (rate : ℚ)
    (df : List EstabRow) :
    (∀ qs : List String,
      (∀ la, (tryQueries oracle rate qs).1.1 = some la →
        la.isLtZero = true) ∧
      (∀ lo, (tryQueries oracle rate qs).1.2 = some lo →
        lo.isLtZero = true)) ∧
    (∀ (q : String) (rest : List String) (la lo : FVal),
      ¬(pyStrip q = "") → oracle (pyStrip q) = .found la lo →
      ¬((la.isLtZero && lo.isLtZero) = true) →
      tryQueries oracle rate (q :: rest) =
        ((tryQueries oracle rate rest).1,
         .req (pyStrip q) :: .sleep rate :: (tryQueries oracle rate rest).2)) ∧
    (∀ x ∈ (enrich_nominatim oracle df rate).1,
      (x ∈ df ∧ x.LATITUDE.isSome = true) ∨
      ((∀ la, x.LATITUDE = some la → la.isLtZero = true) ∧
       (∀ lo, x.LONGITUDE = some lo → lo.isLtZero = true))) := by
  refine ⟨?_, ?_, ?_⟩
  · intro qs
    rcases tryQueries_shape oracle rate qs with h | ⟨la0, lo0, h, h1, h2⟩
    · constructor
      · intro la hla
        rw [show (tryQueries oracle rate qs).1.1 = none by rw [h]] at hla
        cases hla
      · intro lo hlo
        rw [show (tryQueries oracle rate qs).1.2 = none by rw [h]] at hlo
        cases hlo
    · constructor
      · intro la hla
        rw [show (tryQueries oracle rate qs).1.1 = some la0 by rw [h]] at hla
        injection hla with hla
        exact hla ▸ h1
      · intro lo hlo
        rw [show (tryQueries oracle rate qs).1.2 = some lo0 by rw [h]] at hlo
        injection hlo with hlo
        exact hlo ▸ h2
  · intro q rest la lo hq ho hneg
    rw [tryQueries, if_neg hq, ho]
    dsimp only
    rw [if_neg hneg]
  · intro x hx
    have hx' := (enrich_nominatim_perm oracle df rate).mem_iff.mp hx
    rcases List.mem_map.mp hx' with ⟨r, hmem, hm⟩
    subst hm
    unfold nomRow
    split
    · rename_i hy
      exact Or.inl ⟨hmem, hy⟩
    · right
      rcases tryQueries_shape oracle rate (nomQueries r) with h | ⟨la0, lo0, h, h1, h2⟩
      · constructor
        · intro la hla
          rw [nomiRow_lat, show (tryQueries oracle rate (nomQueries r)).1.1
            = none by rw [h]] at hla
          cases hla
        · intro lo hlo
          rw [nomiRow_lon, show (tryQueries oracle rate (nomQueries r)).1.2
            = none by rw [h]] at hlo
          cases hlo
      · constructor
        · intro la hla
          rw [nomiRow_lat, show (tryQueries oracle rate (nomQueries r)).1.1
            = some la0 by rw [h]] at hla
          injection hla with hla
          exact hla ▸ h1
        · intro lo hlo
          rw [nomiRow_lon, show (tryQueries oracle rate (nomQueries r)).1.2
            = some lo0 by rw [h]] at hlo
          injection hlo with hlo
          exact hlo ▸ h2

theorem hemisphereFilter_witness :
    (tryQueries oracleAccept (11 / 10) ["Rua X"]).1.1 =
      some (FVal.fin (-1)) ∧
    FVal.isLtZero (FVal.fin (-1)) = true := by
  refine ⟨rfl, ?_⟩
  exact ((hemisphereFilter oracleAccept (11 / 10) []).1 ["Rua X"]).1
    (FVal.fin (-1)) rfl

/-- C4 (code-bug evidence): `enrich` performs no row-count verification
before returning.  Its result is either `.ok` — in which case the row count
is preserved as a by-product of how the stages are built, with no check
executed — or one of the two `load_coords` errors propagated unchanged.
There is no error path signalling a row-count mismatch, so a corrupting
stage could never be detected, contrary to the claim. -/
theorem enrichNoRowCountCheck (file : Option CoordFile)
    (codes : Option (List Int)) (flag : Bool) (oracle : String → GeoResp)
    (df : List EstabRow) :
    match enrich file codes flag oracle df with
    | .ok out => out.length = df.length
    | .error e => load_coords file codes = .error e := by
  cases h : enrich file codes flag oracle df with
  | ok out =>
    show out.length = df.length
    obtain ⟨c, _, hp⟩ := enrich_ok_perm h
    rw [hp.length_eq, List.length_map]
  | error e =>
    show load_coords file codes = .error e
    unfold enrich at h
    cases hl : load_coords file codes with
    | error e2 =>
      rw [hl] at h
      injection h with h
      exact congrArg Except.error h
    | ok c =>
      rw [hl] at h
      exact absurd h (by simp)

theorem enrichNoRowCountCheck_witness :
    load_coords (none : Option CoordFile) none =
      .error LoadError.fileNotFound := by
  have h := enrichNoRowCountCheck none none false oracleEmpty []
  exact h

/-- C6 (code-bug evidence): with a geocoder that accepts every query and a
batch of two unresolved rows, the Nominatim stage issues two requests
back-to-back with no sleep event between them — on an accepted result the
`break` exits the variant loop before `time.sleep(rate_limit)` runs, so no
politeness delay separates an accepted request from the first request
of the next row. -/
theorem nominatimNoDelayAfterAccept :
    (enrich_nominatim oracleAccept
      [estFix "20000000" "1" "SP" "A", estFix "20000000" "2" "SP" "B"]
      (11 / 10)).2 =
      [NomEvent.req "1 SP Brasil", NomEvent.req "2 SP Brasil"] ∧
    reqsSeparated (11 / 10) (enrich_nominatim oracleAccept
      [estFix "20000000" "1" "SP" "A", estFix "20000000" "2" "SP" "B"]
      (11 / 10)).2 = false := by
  exact ⟨rfl, rfl⟩

/-- C7 (code-bug evidence): for an unresolved row whose full-address query
yields an empty result, the two issued queries are the composite address
and then the bare display name — the second query does not contain the
region code, although the claim (and the docstring of the function itself)
says it is the display name plus the region code. -/
theorem nominatimSecondQueryLacksUF :
    reqsOf (enrich_nominatim oracleEmpty
      [estFix "20000000" "100" "SP" "Padaria Central"] (11 / 10)).2 =
      [build_address (estFix "20000000" "100" "SP" "Padaria Central"),
       (estFix "20000000" "100" "SP" "Padaria Central").NOME_FANTASIA] ∧
    reqsOf (enrich_nominatim oracleEmpty
      [estFix "20000000" "100" "SP" "Padaria Central"] (11 / 10)).2 =
      ["100 SP Brasil", "Padaria Central"] ∧
    ("Padaria Central" : String) ≠
      "Padaria Central" ++ " " ++ (estFix "20000000" "100" "SP" "Padaria Central").UF := by
  refine ⟨rfl, rfl, ?_⟩
  intro h
  have : ("Padaria Central" : String).length =
      ("Padaria Central SP" : String).length := congrArg String.length h
  simp [string_length_data] at this

/-- C8 counterexample: the loader retains a catalog row whose latitude is
NaN — the filter only removes null (cast-failure) coordinates, not
non-finite ones, so the claim that rows with non-finite coordinates are
discarded is false. -/
theorem loadRetainsNaN :
    load_coords (some cfileNaN) none = .ok [rowNaN] ∧
    rowNaN.LATITUDE = some FVal.nan := ⟨rfl, rfl⟩

/-- C8 (amended): every row surviving the loader has a non-empty
digit-stripped street number and non-null (though not necessarily finite)
latitude and longitude; at most one row remains per
`(CEP, NUM_ENDERECO)` key; and the numeric street-number column equals
`parseNum` of the street number (null exactly when parsing fails, the row
being retained either way). -/
theorem loadFilterDedup {file : Option CoordFile} {codes : Option (List Int)}
    {out : List CoordRow} (h : load_coords file codes = .ok out) :
    (∀ r ∈ out, r.NUM_ENDERECO.length > 0 ∧ r.LATITUDE.isSome = true ∧
      r.LONGITUDE.isSome = true ∧ r.NUM_IBGE = parseNum r.NUM_ENDERECO) ∧
    keysUnique out :=
  ⟨load_coords_ok_props h, load_coords_ok_unique h⟩

theorem loadFilterDedup_witness : keysUnique [rowNaN] :=
  (@loadFilterDedup (some cfileNaN) none [rowNaN] rfl).2

end Enricher
